import Mathlib

/-!
# Verification of the OmniParser call/poll client scripts

A shallow embedding of the event-based remote job client implemented (in three
near-identical variants) by `test_omniparser_http.py`, `test_omniparser_logging.py`
and `inspect_omniparser.py`:

* a model `PyVal` of the JSON / Python-literal data the scripts manipulate,
  together with an executable strict JSON parser (`jsonLoads`, modelling
  `json.loads`) and a permissive literal parser (`literalEval`, modelling
  `ast.literal_eval`);
* the per-line event-frame handling, the payload decoding with its fallback,
  the element normalisation and filtering, and the bounded poll loops of the
  two test scripts, each return site of the Python functions becoming one
  constructor of an `Outcome` type;
* theorems settling the specification claims about this client.

Strings are handled through their underlying character lists throughout, so
that every definition reduces in the kernel.  Known deliberate simplifications
of the parsers (faithful on everything the repository's payloads exercise):
no `\uXXXX` escapes, no `NaN`/`Infinity`, numerals kept as their source text.
-/

namespace Omni

/-! ## Characters and low-level string helpers -/

/-- Backslash character. -/
def bslash : Char := '\\'

/-- Single-quote character (written via its code point). -/
def squote : Char := Char.ofNat 39

/-- Double-quote character. -/
def dquote : Char := '"'

/-- Left square bracket. -/
def lbrack : Char := '['

/-- Right square bracket. -/
def rbrack : Char := ']'

/-- Left curly brace. -/
def lbrace : Char := Char.ofNat 123

/-- Right curly brace. -/
def rbrace : Char := Char.ofNat 125

/-- Comma. -/
def comma : Char := ','

/-- Colon. -/
def colonC : Char := ':'

/-- The whitespace characters skipped by the JSON scanner. -/
def isJsonWs (c : Char) : Bool := c == ' ' || c == '\t' || c == '\n' || c == '\r'

/-- The whitespace characters stripped by Python `str.strip()`. -/
def isPyWs (c : Char) : Bool :=
  c == ' ' || c == '\t' || c == '\n' || c == '\r' || c == Char.ofNat 11 || c == Char.ofNat 12

/-- Skip leading JSON whitespace. -/
def skipWs (cs : List Char) : List Char := cs.dropWhile isJsonWs

/-- `stripPfx p cs` returns `some rest` when `cs = p ++ rest` (models
`str.startswith` followed by slicing the prefix off). -/
def stripPfx : List Char → List Char → Option (List Char)
  | [], cs => some cs
  | _ :: _, [] => none
  | a :: as, c :: cs => if a = c then stripPfx as cs else none

/-- Split a character list at newline characters; models Python
`str.split('\n')` (never returns an empty list, keeps empty segments). -/
def splitLines : List Char → List (List Char)
  | [] => [[]]
  | c :: rest =>
    let r := splitLines rest
    if c = '\n' then [] :: r
    else
      match r with
      | h :: t => (c :: h) :: t
      | [] => [[c]]

/-- Python `text.split('\n')` on a `String`. -/
def pySplitLines (s : String) : List String := (splitLines s.data).map (fun l => ⟨l⟩)

/-- Python `str.strip()`: remove leading and trailing whitespace. -/
def pyStrip (s : String) : String :=
  ⟨((s.data.dropWhile isPyWs).reverse.dropWhile isPyWs).reverse⟩

/-- Python `str.lower()` (ASCII behaviour of `Char.toLower`). -/
def pyLower (s : String) : String := ⟨s.data.map Char.toLower⟩

/-- `charsPrefix p h`: is `p` a prefix of `h`? -/
def charsPrefix : List Char → List Char → Bool
  | [], _ => true
  | _ :: _, [] => false
  | a :: as, b :: bs => a == b && charsPrefix as bs

/-- `charsContains h n`: does `h` contain `n` as a contiguous run?  Models
Python `n in h` for strings (in particular the empty needle always matches). -/
def charsContains (h : List Char) (n : List Char) : Bool :=
  if charsPrefix n h then true
  else
    match h with
    | [] => false
    | _ :: t => charsContains t n

/-- Python substring test `needle in hay`. -/
def strContains (hay needle : String) : Bool := charsContains hay.data needle.data

/-! ## The dynamic value model -/

/-- The dynamic values produced by `json.loads` / `ast.literal_eval`: the data
model both services' payloads live in.  Numbers keep their source numeral text
(the scripts never do arithmetic on them). -/
inductive PyVal where
  | null : PyVal
  | bool (b : Bool) : PyVal
  | num (s : String) : PyVal
  | str (s : String) : PyVal
  | list (xs : List PyVal) : PyVal
  | dict (ps : List (String × PyVal)) : PyVal

/-! ## Numeral validation -/

/-- Characters that can occur inside a numeral token. -/
def numChar (c : Char) : Bool :=
  c.isDigit || c == '.' || c == '-' || c == '+' || c == 'e' || c == 'E'

/-- Consume the integer part of a numeral (`0`, or a nonzero digit followed by
digits); `none` when absent. -/
def chkInt : List Char → Option (List Char)
  | [] => none
  | c :: t =>
    if c = '0' then some t
    else if c.isDigit then some (t.dropWhile Char.isDigit)
    else none

/-- Consume an optional fractional part `.digits`. -/
def chkFrac : List Char → Option (List Char)
  | [] => some []
  | c :: t =>
    if c = '.' then
      if (t.takeWhile Char.isDigit).isEmpty then none else some (t.dropWhile Char.isDigit)
    else some (c :: t)

/-- Consume an optional exponent part `e[+-]digits`. -/
def chkExp : List Char → Option (List Char)
  | [] => some []
  | c :: t =>
    if c = 'e' || c = 'E' then
      match t with
      | [] => none
      | c2 :: t2 =>
        if c2 = '+' || c2 = '-' then
          if (t2.takeWhile Char.isDigit).isEmpty then none else some (t2.dropWhile Char.isDigit)
        else
          if ((c2 :: t2).takeWhile Char.isDigit).isEmpty then none
          else some ((c2 :: t2).dropWhile Char.isDigit)
    else some (c :: t)

/-- Well-formed unsigned numeral. -/
def wfUnsigned (cs : List Char) : Bool :=
  match chkInt cs with
  | none => false
  | some r1 =>
    match chkFrac r1 with
    | none => false
    | some r2 =>
      match chkExp r2 with
      | some [] => true
      | _ => false

/-- Well-formed numeral (optional leading minus). -/
def wfNumCore (cs : List Char) : Bool :=
  match cs with
  | [] => false
  | c :: t => if c = '-' then wfUnsigned t else wfUnsigned (c :: t)

/-- First character of a numeral is a digit or a minus sign. -/
def headNumOk : List Char → Bool
  | [] => false
  | c :: _ => c.isDigit || c == '-'

/-! ## String-literal bodies and keyword literals -/

/-- Decode one escape sequence character (after a backslash), as accepted by
the relevant parser.  `\/` is JSON-only; the common set is shared. -/
def escChar (perm : Bool) (c : Char) : Option Char :=
  if c = 'n' then some '\n'
  else if c = 't' then some '\t'
  else if c = 'r' then some '\r'
  else if c = bslash then some bslash
  else if c = dquote then some dquote
  else if c = squote then some squote
  else if c = '/' then (if perm then none else some '/')
  else none

/-- Parse the body of a string literal up to the closing quote `q`,
processing backslash escapes. -/
def pStrBody (perm : Bool) (q : Char) : List Char → Option (List Char × List Char)
  | [] => none
  | c :: rest =>
    if c = q then some ([], rest)
    else if c = bslash then
      match rest with
      | [] => none
      | e :: rest2 =>
        match escChar perm e with
        | none => none
        | some ec =>
          match pStrBody perm q rest2 with
          | some (s, r) => some (ec :: s, r)
          | none => none
    else
      match pStrBody perm q rest with
      | some (s, r) => some (c :: s, r)
      | none => none

/-- Parse a numeral token by maximal munch over `numChar`, then validate. -/
def pNum (cs : List Char) : Option (PyVal × List Char) :=
  let ds := cs.takeWhile numChar
  if wfNumCore ds then some (.num ⟨ds⟩, cs.dropWhile numChar) else none

/-- The keyword `null` (JSON). -/
def kwNull : List Char := ['n', 'u', 'l', 'l']

/-- The keyword `true` (JSON). -/
def kwTrue : List Char := ['t', 'r', 'u', 'e']

/-- The keyword `false` (JSON). -/
def kwFalse : List Char := ['f', 'a', 'l', 's', 'e']

/-- The keyword `None` (Python). -/
def kwNone : List Char := ['N', 'o', 'n', 'e']

/-- The keyword `True` (Python). -/
def kwPyTrue : List Char := ['T', 'r', 'u', 'e']

/-- The keyword `False` (Python). -/
def kwPyFalse : List Char := ['F', 'a', 'l', 's', 'e']

/-- Match one of the constant literals at the head of the input: JSON keywords
in strict mode, Python keywords in permissive mode. -/
def kwLit (perm : Bool) (cs : List Char) : Option (PyVal × List Char) :=
  if perm then
    match stripPfx kwNone cs with
    | some r => some (.null, r)
    | none =>
      match stripPfx kwPyTrue cs with
      | some r => some (.bool true, r)
      | none =>
        match stripPfx kwPyFalse cs with
        | some r => some (.bool false, r)
        | none => none
  else
    match stripPfx kwNull cs with
    | some r => some (.null, r)
    | none =>
      match stripPfx kwTrue cs with
      | some r => some (.bool true, r)
      | none =>
        match stripPfx kwFalse cs with
        | some r => some (.bool false, r)
        | none => none

/-- Parse a dictionary key: a string literal (double-quoted in strict mode,
either quote in permissive mode). -/
def pKey (perm : Bool) (cs : List Char) : Option (String × List Char) :=
  match cs with
  | [] => none
  | c :: rest =>
    if c = dquote then
      match pStrBody perm dquote rest with
      | some (s, r) => some (⟨s⟩, r)
      | none => none
    else if perm && c = squote then
      match pStrBody perm squote rest with
      | some (s, r) => some (⟨s⟩, r)
      | none => none
    else none

/-! ## The recursive value parser

One fuel-indexed recursive-descent parser covers both `json.loads`
(`perm = false`) and `ast.literal_eval` (`perm = true`); the two differ in the
accepted quote characters and constant keywords. -/

mutual

/-- Parse one value. -/
def pVal (perm : Bool) : Nat → List Char → Option (PyVal × List Char)
  | 0, _ => none
  | fuel + 1, cs =>
    match skipWs cs with
    | [] => none
    | c :: rest =>
      if c = lbrack then
        match skipWs rest with
        | [] => none
        | c2 :: r2 =>
          if c2 = rbrack then some (.list [], r2)
          else
            match pItems perm fuel (c2 :: r2) with
            | some (xs, r3) => some (.list xs, r3)
            | none => none
      else if c = lbrace then
        match skipWs rest with
        | [] => none
        | c2 :: r2 =>
          if c2 = rbrace then some (.dict [], r2)
          else
            match pEntries perm fuel (c2 :: r2) with
            | some (ps, r3) => some (.dict ps, r3)
            | none => none
      else if c = dquote then
        match pStrBody perm dquote rest with
        | some (s, r) => some (.str ⟨s⟩, r)
        | none => none
      else if perm && c = squote then
        match pStrBody perm squote rest with
        | some (s, r) => some (.str ⟨s⟩, r)
        | none => none
      else
        match kwLit perm (c :: rest) with
        | some (v, r) => some (v, r)
        | none => if c.isDigit || c = '-' then pNum (c :: rest) else none

/-- Parse one or more comma-separated values followed by `]`. -/
def pItems (perm : Bool) : Nat → List Char → Option (List PyVal × List Char)
  | 0, _ => none
  | fuel + 1, cs =>
    match pVal perm fuel cs with
    | none => none
    | some (v, r) =>
      match skipWs r with
      | [] => none
      | c :: r2 =>
        if c = comma then
          match pItems perm fuel r2 with
          | some (xs, r3) => some (v :: xs, r3)
          | none => none
        else if c = rbrack then some ([v], r2)
        else none

/-- Parse one or more `key : value` entries followed by the closing brace. -/
def pEntries (perm : Bool) : Nat → List Char → Option (List (String × PyVal) × List Char)
  | 0, _ => none
  | fuel + 1, cs =>
    match pKey perm (skipWs cs) with
    | none => none
    | some (k, r) =>
      match skipWs r with
      | [] => none
      | c :: r2 =>
        if c = colonC then
          match pVal perm fuel r2 with
          | none => none
          | some (v, r3) =>
            match skipWs r3 with
            | [] => none
            | c2 :: r4 =>
              if c2 = comma then
                match pEntries perm fuel r4 with
                | some (ps, r5) => some ((k, v) :: ps, r5)
                | none => none
              else if c2 = rbrace then some ([(k, v)], r4)
              else none
        else none

end

/-- Parse a whole string: one value, then only trailing whitespace.  The fuel
`2 * length + 4` dominates the parser's fuel use on any input it accepts. -/
def parseTop (perm : Bool) (s : String) : Option PyVal :=
  match pVal perm (2 * s.length + 4) s.data with
  | some (v, rest) => if (skipWs rest).isEmpty then some v else none
  | none => none

/-- `json.loads` on a text payload (strict JSON). -/
def jsonLoads (s : String) : Option PyVal := parseTop false s

/-- `ast.literal_eval` on a text payload (permissive Python literals). -/
def literalEval (s : String) : Option PyVal := parseTop true s

/-! ## Canonical renderings

`reprC perm v` renders a value in the concrete syntax the corresponding parser
mode accepts: strict JSON for `perm = false`, Python literal syntax
(single-quoted strings, `True` / `False` / `None`) for `perm = true`.  These
define, for the fallback/strict equivalence property, what "the equivalent
valid-JSON string" of a permissive-literal payload is. -/

/-- Render a dictionary key with the mode's quote character. -/
def reprKey (perm : Bool) (k : String) : List Char :=
  (if perm then squote else dquote) :: k.data ++ [if perm then squote else dquote]

mutual

/-- Render one value. -/
def reprC (perm : Bool) : PyVal → List Char
  | .null => if perm then kwNone else kwNull
  | .bool b => if perm then (if b then kwPyTrue else kwPyFalse) else (if b then kwTrue else kwFalse)
  | .num s => s.data
  | .str s => (if perm then squote else dquote) :: s.data ++ [if perm then squote else dquote]
  | .list xs => lbrack :: reprItems perm xs ++ [rbrack]
  | .dict ps => lbrace :: reprFields perm ps ++ [rbrace]

/-- Render list items, comma-separated. -/
def reprItems (perm : Bool) : List PyVal → List Char
  | [] => []
  | [v] => reprC perm v
  | v :: w :: rest => reprC perm v ++ comma :: reprItems perm (w :: rest)

/-- Render dictionary entries, comma-separated. -/
def reprFields (perm : Bool) : List (String × PyVal) → List Char
  | [] => []
  | [(k, v)] => reprKey perm k ++ colonC :: reprC perm v
  | (k, v) :: e :: rest =>
    reprKey perm k ++ colonC :: reprC perm v ++ comma :: reprFields perm (e :: rest)

end

/-- Render a value as a `String`. -/
def reprP (perm : Bool) (v : PyVal) : String := ⟨reprC perm v⟩

/-! ## Well-formed values and a size measure -/

/-- String contents that need no escaping under either quote convention. -/
def okStrChar (c : Char) : Bool := !(c == dquote || c == squote || c == bslash)

/-- A string whose rendering is quote-free. -/
def wfStr (s : String) : Bool := s.data.all okStrChar

/-- A numeral text acceptable to both parsers, with the facts the round-trip
argument needs recorded as explicit conjuncts. -/
def wfNumFull (s : String) : Bool :=
  wfNumCore s.data && s.data.all numChar && headNumOk s.data

mutual

/-- Well-formed value: numerals valid, strings and keys quote- and
backslash-free. -/
def WF : PyVal → Bool
  | .null => true
  | .bool _ => true
  | .num s => wfNumFull s
  | .str s => wfStr s
  | .list xs => WFL xs
  | .dict ps => WFE ps

/-- Well-formed list of values. -/
def WFL : List PyVal → Bool
  | [] => true
  | v :: xs => WF v && WFL xs

/-- Well-formed entry list. -/
def WFE : List (String × PyVal) → Bool
  | [] => true
  | (k, v) :: ps => wfStr k && WF v && WFE ps

end

mutual

/-- Size of a value, measuring the parser fuel it needs. -/
def sizeV : PyVal → Nat
  | .null => 1
  | .bool _ => 1
  | .num _ => 1
  | .str _ => 1
  | .list xs => 1 + sizeL xs
  | .dict ps => 1 + sizeE ps

/-- Size of a list of values. -/
def sizeL : List PyVal → Nat
  | [] => 1
  | v :: xs => sizeV v + 1 + sizeL xs

/-- Size of an entry list. -/
def sizeE : List (String × PyVal) → Nat
  | [] => 1
  | (_, v) :: ps => sizeV v + 1 + sizeE ps

end

/-! ## The layered payload decoder of `inspect_omniparser.py`

`inspect_omniparser_response` (lines 86–123) parses a frame payload with
`json.loads`; when the result is a list of length ≥ 2 whose second element is
a string, that inner string is parsed with `json.loads`, falling back to
`ast.literal_eval` when the strict parse raises `JSONDecodeError`. -/

/-- Inner element-list decode with fallback (`inspect_omniparser.py`
lines 104–123). -/
def decodeInner (s : String) : Option PyVal :=
  match jsonLoads s with
  | some v => some v
  | none => literalEval s

/-- Full two-stage decode of one frame payload down to the element list
(`inspect_omniparser.py` lines 86–123); `none` when no element list is
extracted. -/
def inspectDecode (data : String) : Option PyVal :=
  match jsonLoads data with
  | some (.list xs) =>
    if 2 ≤ xs.length then
      match xs[1]? with
      | some (PyVal.str s) => decodeInner s
      | _ => none
    else none
  | _ => none

/-! ## Element dictionaries

Helpers mirroring how the scripts access the decoded element maps:
`dict.get` with a default, Python truthiness for `x or ''`, `str.lower`,
and which values the `:.2f` format accepts without raising. -/

/-- Python dictionary lookup (later duplicate keys shadow earlier ones, as in
a Python dict built left-to-right). -/
def pyLookup (d : List (String × PyVal)) (k : String) : Option PyVal :=
  d.foldl (fun acc p => if p.1 = k then some p.2 else acc) none

/-- `elem.get(k, dflt)`. -/
def pyGetD (d : List (String × PyVal)) (k : String) (dflt : PyVal) : PyVal :=
  match pyLookup d k with
  | some v => v
  | none => dflt

/-- Every digit of the numeral's mantissa is zero (`0`, `0.0`, `-0.00` …). -/
def numAllZero (s : String) : Bool :=
  (s.data.takeWhile (fun c => !(c == 'e' || c == 'E'))).all (fun c => !c.isDigit || c == '0')

/-- Python truthiness of a value. -/
def pyTruthy : PyVal → Bool
  | .null => false
  | .bool b => b
  | .num s => !numAllZero s
  | .str s => !s.data.isEmpty
  | .list xs => !xs.isEmpty
  | .dict d => !d.isEmpty

/-- `x or ''` applied to an optional lookup result (absent and falsy values
both become the empty string). -/
def orEmptyV : Option PyVal → PyVal
  | none => .str ""
  | some v => if pyTruthy v then v else .str ""

/-- `.lower()`: defined on strings, raises (`none`) on anything else. -/
def asLowerStr : PyVal → Option String
  | .str s => some (pyLower s)
  | _ => none

/-- Values accepted by the `f"{x:.2f}"` format without raising. -/
def fmtF2Ok : PyVal → Bool
  | .num _ => true
  | .bool _ => true
  | _ => false

/-- Is the value a dictionary? -/
def isDictV : PyVal → Bool
  | .dict _ => true
  | _ => false

/-! ## Outcomes

Each constructor is one textual return site of the Python test functions. -/

/-- Exit points of `test_omniparser` / `test_omniparser_with_logging`:

* `succeeded` — `return True` after a terminal frame;
* `timedOut` — the timeout `return False` (after the loop in the logging
  script, at the last attempt inside the loop in the http script);
* `emptyResult` — `return False` when the decoded element list is empty
  (logging script only);
* `noMatch` — `return False` when the text filter matches nothing
  (logging script only);
* `submitFailed` — `return False` on a non-200 submission response
  (logging script only);
* `transportError` — `return False` from `except RequestException`
  (http script only);
* `error` — `return False` from the generic `except Exception` handler;
* `fellThrough` — the http script's poll loop running off its end,
  returning `None`. -/
inductive Outcome where
  | succeeded : Outcome
  | timedOut : Outcome
  | emptyResult : Outcome
  | noMatch : Outcome
  | submitFailed : Outcome
  | transportError : Outcome
  | error : Outcome
  | fellThrough : Outcome
deriving DecidableEq

/-- Truthiness of the Python return value at each exit (used by
`sys.exit(0 if success else 1)`; `None` from `fellThrough` is falsy). -/
def outcomeBool : Outcome → Bool
  | .succeeded => true
  | _ => false

/-! ## Element handling and filtering (`test_omniparser_logging.py`) -/

/-- The text filter loop (lines 126–143): lowercased target against
`(elem.get('content') or '').lower()` and likewise `source`; `none` models an
exception escaping the loop (non-dict element, non-string truthy field, or a
matched element whose `confidence` the match-print cannot format). -/
def filterLog (tl : String) : List PyVal → Option (List PyVal)
  | [] => some []
  | e :: rest =>
    match e with
    | .dict d =>
      match asLowerStr (orEmptyV (pyLookup d "content")),
          asLowerStr (orEmptyV (pyLookup d "source")) with
      | some c, some s =>
        let m := strContains c tl || strContains s tl
        if m && !fmtF2Ok (pyGetD d "confidence" (.num "0")) then none
        else
          match filterLog tl rest with
          | some ms => some (if m then e :: ms else ms)
          | none => none
      | _, _ => none
    | _ => none

/-- The filter as invoked: `target_lower = target_text.lower()` first
(line 126), then the loop. -/
def codeFilter (target : String) (xs : List PyVal) : Option (List PyVal) :=
  filterLog (pyLower target) xs

/-- Can the per-element display block (lines 109–114) print this element
without raising?  It needs a dict whose `confidence` (default `0`) the
`:.2f` format accepts. -/
def displayOkLog (e : PyVal) : Bool :=
  match e with
  | .dict d => fmtF2Ok (pyGetD d "confidence" (.num "0"))
  | _ => false

/-- Lines 102–145: what happens after the element list decodes.  `len` of a
non-sized value raises; an empty list (or empty sized value) is the
`return False` at line 106; the display loop slices `elements[:10]` (slicing
a dict raises, iterating a string yields characters without `.get`); then the
optional filter, then `return True`. -/
def handleElemsLog (target : Option String) (elems : PyVal) : Outcome :=
  match elems with
  | .list xs =>
    if xs.length = 0 then .emptyResult
    else if !(xs.take 10).all displayOkLog then .error
    else
      match target with
      | none => .succeeded
      | some t =>
        match codeFilter t xs with
        | none => .error
        | some matched => if matched.isEmpty then .noMatch else .succeeded
  | .str s => if s.length = 0 then .emptyResult else .error
  | .dict d => if d.length = 0 then .emptyResult else .error
  | _ => .error

/-- Lines 87–148: decode one non-sentinel frame payload.  A `JSONDecodeError`
from either `json.loads` is caught at line 146 and the line is skipped
(`none`); a non-string `parsed[1]` is used as the element list directly
(line 100). -/
def decodeFrameLog (target : Option String) (data : String) : Option Outcome :=
  match jsonLoads data with
  | some (.list xs) =>
    if 2 ≤ xs.length then
      match xs[1]? with
      | some (PyVal.str s) =>
        match jsonLoads s with
        | some elems => some (handleElemsLog target elems)
        | none => none
      | some v => some (handleElemsLog target v)
      | none => none
    else none
  | some _ => none
  | none => none

/-! ## Event frames and line scanning -/

/-- `line.startswith('data: ')` and `line[6:]`. -/
def framePayload (line : String) : Option String :=
  match stripPfx "data: ".data line.data with
  | some rest => some ⟨rest⟩
  | none => none

/-- One line of a poll response in the logging script: non-frames and the
`null` sentinel are skipped (lines 81–85), everything else is decoded. -/
def processLineLog (target : Option String) (line : String) : Option Outcome :=
  match framePayload line with
  | none => none
  | some data => if data = "null" then none else decodeFrameLog target data

/-- Scan the lines of one response in order; the first line that produces an
outcome wins (the Python `for line in lines` with its `return` / raise). -/
def scanLines (step : String → Option Outcome) : List String → Option Outcome
  | [] => none
  | l :: rest =>
    match step l with
    | some o => some o
    | none => scanLines step rest

/-! ## Element handling (`test_omniparser_http.py`) -/

/-- Lines 77–91 after the inner `json.loads` succeeded: `len(elements)` and
the display loop over `elements[:5]` (each shown element must be a dict);
an empty string slices to nothing and still reaches `return True`. -/
def afterInnerHttp (elems : PyVal) : Outcome :=
  match elems with
  | .list xs => if (xs.take 5).all isDictV then .succeeded else .error
  | .str s => if s.length = 0 then .succeeded else .error
  | _ => .error

/-- Lines 68–93: decode one non-sentinel frame payload in the http script.
An outer `JSONDecodeError` is swallowed (`pass`, line 93).  When the outer
value is a list of length ≥ 2: a string `parsed[1]` is parsed strictly, and a
failure there still reaches `return True` (lines 88–91); a non-string
`parsed[1]` makes `json.loads` raise `TypeError`, which escapes to the
function-level handler. -/
def decodeFrameHttp (data : String) : Option Outcome :=
  match jsonLoads data with
  | some (.list xs) =>
    if 2 ≤ xs.length then
      match xs[1]? with
      | some (PyVal.str s) =>
        some (match jsonLoads s with
          | some elems => afterInnerHttp elems
          | none => .succeeded)
      | some _ => some .error
      | none => none
    else none
  | some _ => none
  | none => none

/-- One line of a poll response in the http script (lines 61–66). -/
def processLineHttp (line : String) : Option Outcome :=
  match framePayload line with
  | none => none
  | some data => if data = "null" then none else decodeFrameHttp data

/-! ## The poll loops and job runners

The environment is abstracted as oracles: the submission response, and the
response to the `n`-th result fetch. -/

/-- Response to one result fetch: a raised `RequestException`, or an HTTP
response with its status code and text body. -/
inductive FetchResp where
  | raise : FetchResp
  | ok (status : Nat) (body : String) : FetchResp

/-- Submission response: a raised exception, or a response with its status
and the `event_id` field of its JSON body (absent when the field is
missing). -/
inductive SubmitResp where
  | raise : SubmitResp
  | ok (status : Nat) (eventId : Option String) : SubmitResp

/-- The poll loop of `test_omniparser_with_logging` (lines 71–148): at most
`remaining` more iterations, querying the fetch oracle `b` at the current
attempt index; non-200 responses are skipped; a raised fetch escapes to the
generic handler.  Returns the outcome and the number of fetches performed
(line 150's timeout return follows loop exhaustion).  The body is split on
newlines unstripped (line 78). -/
def pollLoopLog (b : Nat → FetchResp) (target : Option String) :
    Nat → Nat → Outcome × Nat
  | _, 0 => (.timedOut, 0)
  | attempt, r + 1 =>
    match b attempt with
    | .raise => (.error, 1)
    | .ok status body =>
      if status = 200 then
        match scanLines (processLineLog target) (pySplitLines body) with
        | some o => (o, 1)
        | none =>
          let p := pollLoopLog b target (attempt + 1) r
          (p.1, p.2 + 1)
      else
        let p := pollLoopLog b target (attempt + 1) r
        (p.1, p.2 + 1)

/-- `test_omniparser_with_logging` (whole function): submission status check
(line 55), unchecked `event_id` extraction (line 60), then the poll loop. -/
def runJobLog (sub : SubmitResp) (b : Nat → FetchResp) (maxAttempts : Nat)
    (target : Option String) : Outcome × Nat :=
  match sub with
  | .raise => (.error, 0)
  | .ok status _eventId =>
    if status = 200 then pollLoopLog b target 0 maxAttempts
    else (.submitFailed, 0)

/-- The poll loop of `test_omniparser` in the http script (lines 54–97): a
raised fetch hits `except RequestException` (line 99) immediately; the
timeout `return False` sits inside the 200-branch at the last attempt
(lines 95–97), so a non-200 final response falls off the loop (`None`).  The
body is `.strip()`-ped before splitting (line 59). -/
def pollLoopHttp (b : Nat → FetchResp) (maxAttempts : Nat) :
    Nat → Nat → Outcome × Nat
  | _, 0 => (.fellThrough, 0)
  | attempt, r + 1 =>
    match b attempt with
    | .raise => (.transportError, 1)
    | .ok status body =>
      if status = 200 then
        match scanLines processLineHttp (pySplitLines (pyStrip body)) with
        | some o => (o, 1)
        | none =>
          if attempt = maxAttempts - 1 then (.timedOut, 1)
          else
            let p := pollLoopHttp b maxAttempts (attempt + 1) r
            (p.1, p.2 + 1)
      else
        let p := pollLoopHttp b maxAttempts (attempt + 1) r
        (p.1, p.2 + 1)

/-- `test_omniparser` in the http script (whole function): submission with
`raise_for_status()` (raises for 4xx/5xx into the `RequestException`
handler), unchecked `event_id`, then the poll loop. -/
def runJobHttp (sub : SubmitResp) (b : Nat → FetchResp) (maxAttempts : Nat) :
    Outcome × Nat :=
  match sub with
  | .raise => (.transportError, 0)
  | .ok status _eventId =>
    if 400 ≤ status ∧ status < 600 then (.transportError, 0)
    else pollLoopHttp b maxAttempts 0 maxAttempts

/-! ## Detection-element normalisation

The scripts keep elements as dynamic dicts and apply defaults at each use
site (`test_omniparser_logging.py` lines 110–114 and 129–137); collecting
those defaults gives the normalisation into a fixed-shape record. -/

/-- A normalised detection element: the four optional fields with the
defaults the code applies (`content` / `source` via `or ''`, `confidence`
via `.get('confidence', 0)`, `interactivity` via
`.get('interactivity', False)`). -/
structure DetectionElement where
  content : PyVal
  confidence : PyVal
  interactivity : PyVal
  source : PyVal

/-- Normalise one raw element map with the code's use-site defaults. -/
def normalizeElement (d : List (String × PyVal)) : DetectionElement :=
  { content := orEmptyV (pyLookup d "content")
    confidence := pyGetD d "confidence" (.num "0")
    interactivity := pyGetD d "interactivity" (.bool false)
    source := orEmptyV (pyLookup d "source") }

/-! ## Pending-only responses -/

/-- A line that contributes no outcome in any variant because it is not a
frame or is the `null` sentinel. -/
def pendingLine (l : String) : Bool :=
  match framePayload l with
  | none => true
  | some d => d == "null"

/-- A response body all of whose frames are the `null` sentinel. -/
def pendingBody (body : String) : Bool :=
  (pySplitLines body).all pendingLine

/-! ## The filter's match predicate, and the specification's variant of it -/

/-- The string carried by a string value (the characterisation theorem only
applies this where the code's `.lower()` call succeeded, i.e. on strings). -/
def strOf : PyVal → String
  | .str s => s
  | _ => ""

/-- The per-element predicate the filter loop implements: the lowercased
target is contained in the lowercased `content` or `source` (defaults
applied, no trimming anywhere). -/
def matchesLog (target : String) (e : PyVal) : Bool :=
  match e with
  | .dict d =>
    strContains (pyLower (strOf (orEmptyV (pyLookup d "content")))) (pyLower target) ||
    strContains (pyLower (strOf (orEmptyV (pyLookup d "source")))) (pyLower target)
  | _ => false

/-- Elements on which the filter loop cannot raise: a dict whose `content` /
`source` lower to strings and whose `confidence` the match-print can
format. -/
def goodElem (e : PyVal) : Bool :=
  match e with
  | .dict d =>
    (asLowerStr (orEmptyV (pyLookup d "content"))).isSome &&
    (asLowerStr (orEmptyV (pyLookup d "source"))).isSome &&
    fmtF2Ok (pyGetD d "confidence" (.num "0"))
  | _ => false

/-- The Filter operation as the specification words it — a "case-insensitive,
whitespace-trimmed comparison" — kept as a separate, clearly-named definition
so it can be compared against the code's `codeFilter`. -/
def specFilterTrimmed (target : String) (xs : List PyVal) : List PyVal :=
  xs.filter (fun e =>
    match e with
    | .dict d =>
      strContains (pyLower (pyStrip (strOf (orEmptyV (pyLookup d "content")))))
        (pyLower (pyStrip target)) ||
      strContains (pyLower (pyStrip (strOf (orEmptyV (pyLookup d "source")))))
        (pyLower (pyStrip target))
    | _ => false)

/-- What may follow a rendered value: after a numeral the next character must
not extend the numeral token (inside renderings the next character is `,`,
`]`, `:` or a brace, none of which can). -/
def headNotNum : List Char → Prop
  | [] => True
  | c :: _ => numChar c = false

/-! ## Round-trip helper lemmas -/

theorem skipWs_cons {c : Char} (cs : List Char) (h : isJsonWs c = false) :
    skipWs (c :: cs) = c :: cs := by
  simp [skipWs, List.dropWhile_cons, h]

theorem stripPfx_self (p r : List Char) : stripPfx p (p ++ r) = some r := by
  induction p with
  | nil => rfl
  | cons a as ih => simp [stripPfx, ih]

theorem stripPfx_ne_head {a c : Char} (as cs : List Char) (h : a ≠ c) :
    stripPfx (a :: as) (c :: cs) = none := by
  simp [stripPfx, h]

theorem ne_of_digit {c x : Char} (h : c.isDigit = true) (hx : x.isDigit = false) : x ≠ c := by
  intro e
  rw [e, h] at hx
  cases hx

theorem isJsonWs_of_digit {c : Char} (h : c.isDigit = true) : isJsonWs c = false := by
  cases hw : isJsonWs c with
  | false => rfl
  | true =>
    exfalso
    simp only [isJsonWs, Bool.or_eq_true, beq_iff_eq] at hw
    rcases hw with ((e | e) | e) | e <;> rw [e] at h <;> cases h

theorem sizeV_pos (v : PyVal) : 1 ≤ sizeV v := by
  cases v <;> simp [sizeV]

theorem takeWhile_append_all {p : Char → Bool} {l1 : List Char} (l2 : List Char)
    (h : l1.all p = true) : (l1 ++ l2).takeWhile p = l1 ++ l2.takeWhile p := by
  induction l1 with
  | nil => simp
  | cons a t ih =>
    simp only [List.all_cons, Bool.and_eq_true] at h
    simp [List.takeWhile_cons, h.1, ih h.2]

theorem dropWhile_append_all {p : Char → Bool} {l1 : List Char} (l2 : List Char)
    (h : l1.all p = true) : (l1 ++ l2).dropWhile p = l2.dropWhile p := by
  induction l1 with
  | nil => simp
  | cons a t ih =>
    simp only [List.all_cons, Bool.and_eq_true] at h
    simp [List.dropWhile_cons, h.1, ih h.2]

theorem pStrBody_rt (perm : Bool) {q : Char} (hq : q = dquote ∨ q = squote)
    {content : List Char} (h : content.all okStrChar = true) (rest : List Char) :
    pStrBody perm q (content ++ q :: rest) = some (content, rest) := by
  induction content with
  | nil => rw [pStrBody.eq_def]; simp
  | cons a t ih =>
    simp only [List.all_cons, Bool.and_eq_true] at h
    have ha : okStrChar a = true := h.1
    simp only [okStrChar, Bool.not_eq_true', Bool.or_eq_false_iff, beq_eq_false_iff_ne] at ha
    have haq : a ≠ q := by rcases hq with e | e <;> rw [e] <;> [exact ha.1.1; exact ha.1.2]
    rw [List.cons_append, pStrBody.eq_def]
    simp [haq, ha.2, ih h.2]

theorem pNum_rt {s : String} (hs : wfNumFull s = true) {rest : List Char}
    (hr : headNotNum rest) : pNum (s.data ++ rest) = some (.num s, rest) := by
  simp only [wfNumFull, Bool.and_eq_true] at hs
  have hrest : rest.takeWhile numChar = [] ∧ rest.dropWhile numChar = rest := by
    cases rest with
    | nil => simp
    | cons c t =>
      simp only [headNotNum] at hr
      simp [List.takeWhile_cons, List.dropWhile_cons, hr]
  simp [pNum, takeWhile_append_all _ hs.1.2, dropWhile_append_all _ hs.1.2, hrest.1, hrest.2,
    hs.1.1]

theorem headNotNum_cons {c : Char} (r : List Char) (h : numChar c = false) :
    headNotNum (c :: r) := h

theorem sizeL_pos (xs : List PyVal) : 1 ≤ sizeL xs := by
  cases xs with
  | nil => simp [sizeL]
  | cons v t => simp [sizeL]; omega

theorem sizeE_pos (ps : List (String × PyVal)) : 1 ≤ sizeE ps := by
  cases ps with
  | nil => simp [sizeE]
  | cons e t => obtain ⟨k, v⟩ := e; simp [sizeE]; omega

theorem kwLit_head_none {c : Char} (perm : Bool) (rest : List Char)
    (h : c.isDigit = true ∨ c = '-') : kwLit perm (c :: rest) = none := by
  have mk : ∀ x : Char, x.isDigit = false → x ≠ '-' → x ≠ c := by
    intro x hx hxm
    rcases h with hd | hm
    · exact ne_of_digit hd hx
    · rw [hm]; exact hxm
  have hN := mk 'N' (by decide) (by decide)
  have hT := mk 'T' (by decide) (by decide)
  have hF := mk 'F' (by decide) (by decide)
  have hn := mk 'n' (by decide) (by decide)
  have ht := mk 't' (by decide) (by decide)
  have hf := mk 'f' (by decide) (by decide)
  cases perm <;>
    simp [kwLit, kwNone, kwPyTrue, kwPyFalse, kwNull, kwTrue, kwFalse,
      stripPfx_ne_head _ _ hN, stripPfx_ne_head _ _ hT, stripPfx_ne_head _ _ hF,
      stripPfx_ne_head _ _ hn, stripPfx_ne_head _ _ ht, stripPfx_ne_head _ _ hf]

theorem reprC_head (perm : Bool) (v : PyVal) (hwf : WF v = true) :
    ∃ c t, reprC perm v = c :: t ∧ isJsonWs c = false ∧ c ≠ rbrack ∧ c ≠ rbrace := by
  cases v with
  | null => cases perm <;> exact ⟨_, _, rfl, by decide, by decide, by decide⟩
  | bool b => cases perm <;> cases b <;> exact ⟨_, _, rfl, by decide, by decide, by decide⟩
  | num s =>
    simp only [WF, wfNumFull, Bool.and_eq_true] at hwf
    obtain ⟨-, hhead⟩ := hwf
    cases hs : s.data with
    | nil => rw [hs] at hhead; cases hhead
    | cons c t =>
      rw [hs] at hhead
      simp only [headNumOk, Bool.or_eq_true, beq_iff_eq] at hhead
      refine ⟨c, t, by simp [reprC, hs], ?_, ?_, ?_⟩
      · rcases hhead with h | h
        · exact isJsonWs_of_digit h
        · rw [h]; decide
      · rcases hhead with h | h
        · exact (ne_of_digit h (by decide)).symm
        · rw [h]; decide
      · rcases hhead with h | h
        · exact (ne_of_digit h (by decide)).symm
        · rw [h]; decide
  | str s => cases perm <;> exact ⟨_, _, rfl, by decide, by decide, by decide⟩
  | list xs => exact ⟨_, _, rfl, by decide, by decide, by decide⟩
  | dict ps => exact ⟨_, _, rfl, by decide, by decide, by decide⟩

theorem pKey_rt (perm : Bool) {k : String} (hk : wfStr k = true) (r : List Char) :
    pKey perm ((if perm then squote else dquote) ::
      (k.data ++ (if perm then squote else dquote) :: r)) = some (k, r) := by
  cases perm with
  | false =>
    simp only [if_neg, Bool.false_eq_true, ite_false]
    rw [pKey]
    simp [pStrBody_rt false (Or.inl rfl) hk r]
  | true =>
    simp only [ite_true]
    rw [pKey]
    have : squote ≠ dquote := by decide
    simp [this, pStrBody_rt true (Or.inr rfl) hk r]

/-- The round-trip core: each parser mode re-reads its own rendering of any
well-formed value (with enough fuel), leaving exactly the trailing input. -/
theorem parseRT : ∀ fuel : Nat,
    (∀ perm (v : PyVal) rest, WF v = true → sizeV v ≤ fuel →
      (∀ s, v = PyVal.num s → headNotNum rest) →
      pVal perm fuel (reprC perm v ++ rest) = some (v, rest)) ∧
    (∀ perm (xs : List PyVal) rest, WFL xs = true → xs ≠ [] → sizeL xs ≤ fuel →
      pItems perm fuel (reprItems perm xs ++ rbrack :: rest) = some (xs, rest)) ∧
    (∀ perm (ps : List (String × PyVal)) rest, WFE ps = true → ps ≠ [] → sizeE ps ≤ fuel →
      pEntries perm fuel (reprFields perm ps ++ rbrace :: rest) = some (ps, rest)) := by
  intro fuel
  induction fuel with
  | zero =>
    refine ⟨?_, ?_, ?_⟩
    · intro perm v rest _ hsz _
      exact absurd hsz (by have := sizeV_pos v; omega)
    · intro perm xs rest _ _ hsz
      exact absurd hsz (by have := sizeL_pos xs; omega)
    · intro perm ps rest _ _ hsz
      exact absurd hsz (by have := sizeE_pos ps; omega)
  | succ fuel ih =>
    obtain ⟨ihV, ihI, ihE⟩ := ih
    refine ⟨?_, ?_, ?_⟩
    · -- pVal
      intro perm v rest hwf hsz hnum
      cases v with
      | null =>
        cases perm
        · have h : reprC false .null ++ rest = 'n' :: ('u' :: 'l' :: 'l' :: rest) := rfl
          rw [h, pVal, skipWs_cons _ (by decide)]
          simp [lbrack, lbrace, dquote, squote, kwLit, stripPfx]
        · have h : reprC true .null ++ rest = 'N' :: ('o' :: 'n' :: 'e' :: rest) := rfl
          rw [h, pVal, skipWs_cons _ (by decide)]
          simp [lbrack, lbrace, dquote, squote, kwLit, stripPfx]
      | bool b =>
        cases perm <;> cases b
        · have h : reprC false (.bool false) ++ rest = 'f' :: ('a' :: 'l' :: 's' :: 'e' :: rest) := rfl
          rw [h, pVal, skipWs_cons _ (by decide)]
          simp [lbrack, lbrace, dquote, squote, kwLit, stripPfx]
        · have h : reprC false (.bool true) ++ rest = 't' :: ('r' :: 'u' :: 'e' :: rest) := rfl
          rw [h, pVal, skipWs_cons _ (by decide)]
          simp [lbrack, lbrace, dquote, squote, kwLit, stripPfx]
        · have h : reprC true (.bool false) ++ rest = 'F' :: ('a' :: 'l' :: 's' :: 'e' :: rest) := rfl
          rw [h, pVal, skipWs_cons _ (by decide)]
          simp [lbrack, lbrace, dquote, squote, kwLit, stripPfx]
        · have h : reprC true (.bool true) ++ rest = 'T' :: ('r' :: 'u' :: 'e' :: rest) := rfl
          rw [h, pVal, skipWs_cons _ (by decide)]
          simp [lbrack, lbrace, dquote, squote, kwLit, stripPfx]
      | num s =>
        have hfull : wfNumFull s = true := hwf
        simp only [WF, wfNumFull, Bool.and_eq_true] at hwf
        obtain ⟨-, hhead⟩ := hwf
        cases hs : s.data with
        | nil => rw [hs] at hhead; cases hhead
        | cons c t =>
          rw [hs] at hhead
          simp only [headNumOk, Bool.or_eq_true, beq_iff_eq] at hhead
          have hnws : isJsonWs c = false := by
            rcases hhead with h | h
            · exact isJsonWs_of_digit h
            · rw [h]; decide
          have hlb : c ≠ lbrack := by
            rcases hhead with h | h
            · exact (ne_of_digit h (by decide)).symm
            · rw [h]; decide
          have hlbr : c ≠ lbrace := by
            rcases hhead with h | h
            · exact (ne_of_digit h (by decide)).symm
            · rw [h]; decide
          have hdq : c ≠ dquote := by
            rcases hhead with h | h
            · exact (ne_of_digit h (by decide)).symm
            · rw [h]; decide
          have hsq : c ≠ squote := by
            rcases hhead with h | h
            · exact (ne_of_digit h (by decide)).symm
            · rw [h]; decide
          have hcond : (c.isDigit || decide (c = '-')) = true := by
            rcases hhead with h | h <;> simp [h]
          have hrepr : reprC perm (.num s) ++ rest = c :: (t ++ rest) := by
            simp [reprC, hs]
          rw [hrepr, pVal, skipWs_cons _ hnws]
          simp only [if_neg hlb, if_neg hlbr, if_neg hdq]
          rw [if_neg (by simp [hsq])]
          rw [kwLit_head_none perm _ hhead]
          simp only [if_pos hcond]
          have harg : c :: (t ++ rest) = s.data ++ rest := by rw [hs]; rfl
          rw [harg]
          exact pNum_rt hfull (by
            cases rest with
            | nil => trivial
            | cons r rs => exact hnum s rfl)
      | str s =>
        have hok : s.data.all okStrChar = true := hwf
        cases perm
        · have h : reprC false (.str s) ++ rest = dquote :: (s.data ++ dquote :: rest) := by
            simp [reprC]
          rw [h, pVal, skipWs_cons _ (by decide)]
          simp only [if_neg (by decide : dquote ≠ lbrack), if_neg (by decide : dquote ≠ lbrace),
            if_pos (rfl : dquote = dquote), pStrBody_rt false (Or.inl rfl) hok rest]
          rw [if_pos trivial]
        · have h : reprC true (.str s) ++ rest = squote :: (s.data ++ squote :: rest) := by
            simp [reprC]
          rw [h, pVal, skipWs_cons _ (by decide)]
          simp only [if_neg (by decide : squote ≠ lbrack), if_neg (by decide : squote ≠ lbrace),
            if_neg (by decide : squote ≠ dquote),
            if_pos (by decide : (true && decide (squote = squote)) = true),
            pStrBody_rt true (Or.inr rfl) hok rest]
          rw [if_pos (by decide : (true && decide True) = true)]
      | list xs =>
        have hwl : WFL xs = true := hwf
        have hrepr : reprC perm (.list xs) ++ rest
            = lbrack :: (reprItems perm xs ++ rbrack :: rest) := by
          simp [reprC]
        rw [hrepr, pVal, skipWs_cons _ (by decide)]
        simp only []
        rw [if_pos trivial]
        cases xs with
        | nil =>
          have h0 : reprItems perm ([] : List PyVal) ++ rbrack :: rest = rbrack :: rest := by
            simp [reprItems]
          rw [h0, skipWs_cons _ (by decide)]
          simp only []
          rw [if_pos trivial]
        | cons v t =>
          have hwv : WF v = true ∧ WFL t = true := by
            simpa [WFL, Bool.and_eq_true] using hwl
          obtain ⟨c, t', hct, hcws, hcbr, -⟩ := reprC_head perm v hwv.1
          have hB : ∃ B, reprItems perm (v :: t) = reprC perm v ++ B := by
            cases t with
            | nil => exact ⟨[], by simp [reprItems]⟩
            | cons w t2 => exact ⟨comma :: reprItems perm (w :: t2), by simp [reprItems]⟩
          obtain ⟨B, hBe⟩ := hB
          have hshape : reprItems perm (v :: t) ++ rbrack :: rest
              = c :: (t' ++ (B ++ rbrack :: rest)) := by
            rw [hBe, hct]; simp
          rw [hshape, skipWs_cons _ hcws]
          simp only []
          rw [if_neg hcbr]
          rw [← hshape]
          rw [ihI perm (v :: t) rest hwl (by simp) (by
            have h1 := sizeL_pos t
            simp only [sizeV] at hsz
            omega)]
      | dict ps =>
        have hwe : WFE ps = true := hwf
        have hrepr : reprC perm (.dict ps) ++ rest
            = lbrace :: (reprFields perm ps ++ rbrace :: rest) := by
          simp [reprC]
        rw [hrepr, pVal, skipWs_cons _ (by decide)]
        simp only []
        rw [if_neg (by decide : lbrace ≠ lbrack), if_pos trivial]
        cases ps with
        | nil =>
          have h0 : reprFields perm ([] : List (String × PyVal)) ++ rbrace :: rest
              = rbrace :: rest := by
            simp [reprFields]
          rw [h0, skipWs_cons _ (by decide)]
          simp only []
          rw [if_pos trivial]
        | cons e t =>
          obtain ⟨k, val⟩ := e
          have hq : isJsonWs (if perm then squote else dquote) = false ∧
              (if perm then squote else dquote) ≠ rbrace := by
            cases perm <;> exact ⟨by decide, by decide⟩
          have hB : ∃ B, reprFields perm ((k, val) :: t)
              = reprKey perm k ++ colonC :: reprC perm val ++ B := by
            cases t with
            | nil => exact ⟨[], by simp [reprFields]⟩
            | cons e2 t2 => exact ⟨comma :: reprFields perm (e2 :: t2), by simp [reprFields]⟩
          obtain ⟨B, hBe⟩ := hB
          have hshape : reprFields perm ((k, val) :: t) ++ rbrace :: rest
              = (if perm then squote else dquote) ::
                  ((k.data ++ [if perm then squote else dquote]) ++
                    (colonC :: reprC perm val ++ B ++ rbrace :: rest)) := by
            rw [hBe]; simp [reprKey]
          rw [hshape, skipWs_cons _ hq.1]
          simp only []
          rw [if_neg hq.2]
          rw [← hshape]
          rw [ihE perm ((k, val) :: t) rest hwe (by simp) (by
            have h1 := sizeE_pos t
            simp only [sizeV] at hsz
            omega)]
    · -- pItems
      intro perm xs rest hwf hne hsz
      cases xs with
      | nil => exact absurd rfl hne
      | cons v t =>
        have hwv : WF v = true ∧ WFL t = true := by
          simpa [WFL, Bool.and_eq_true] using hwf
        have hszs : sizeV v ≤ fuel ∧ sizeL t ≤ fuel := by
          have h1 := sizeL_pos t
          have h2 := sizeV_pos v
          simp only [sizeL] at hsz
          omega
        cases t with
        | nil =>
          have hrepr : reprItems perm [v] ++ rbrack :: rest
              = reprC perm v ++ rbrack :: rest := by
            simp [reprItems]
          rw [pItems, hrepr]
          rw [ihV perm v (rbrack :: rest) hwv.1 hszs.1
            (fun s _ => headNotNum_cons _ (by decide))]
          simp only []
          rw [skipWs_cons _ (by decide)]
          simp only []
          rw [if_neg (by decide : rbrack ≠ comma), if_pos trivial]
        | cons w t2 =>
          have hrepr : reprItems perm (v :: w :: t2) ++ rbrack :: rest
              = reprC perm v ++ (comma :: (reprItems perm (w :: t2) ++ rbrack :: rest)) := by
            simp [reprItems]
          rw [pItems, hrepr]
          rw [ihV perm v _ hwv.1 hszs.1 (fun s _ => headNotNum_cons _ (by decide))]
          simp only []
          rw [skipWs_cons _ (by decide)]
          simp only []
          rw [if_pos trivial]
          rw [ihI perm (w :: t2) rest hwv.2 (by simp) hszs.2]
    · -- pEntries
      intro perm ps rest hwf hne hsz
      cases ps with
      | nil => exact absurd rfl hne
      | cons e t =>
        obtain ⟨k, val⟩ := e
        have hwv : wfStr k = true ∧ WF val = true ∧ WFE t = true := by
          simpa [WFE, Bool.and_eq_true, and_assoc] using hwf
        have hszs : sizeV val ≤ fuel ∧ sizeE t ≤ fuel := by
          have h1 := sizeE_pos t
          have h2 := sizeV_pos val
          simp only [sizeE] at hsz
          omega
        have hqws : isJsonWs (if perm then squote else dquote) = false := by
          cases perm <;> decide
        cases t with
        | nil =>
          have hrepr : reprFields perm [(k, val)] ++ rbrace :: rest
              = (if perm then squote else dquote) ::
                  (k.data ++ (if perm then squote else dquote) ::
                    (colonC :: (reprC perm val ++ rbrace :: rest))) := by
            simp [reprFields, reprKey]
          rw [pEntries, hrepr, skipWs_cons _ hqws]
          rw [pKey_rt perm hwv.1]
          simp only []
          rw [skipWs_cons _ (by decide)]
          simp only []
          rw [if_pos trivial]
          rw [ihV perm val _ hwv.2.1 hszs.1 (fun s _ => headNotNum_cons _ (by decide))]
          simp only []
          rw [skipWs_cons _ (by decide)]
          simp only []
          rw [if_neg (by decide : rbrace ≠ comma), if_pos trivial]
        | cons e2 t2 =>
          have hrepr : reprFields perm ((k, val) :: e2 :: t2) ++ rbrace :: rest
              = (if perm then squote else dquote) ::
                  (k.data ++ (if perm then squote else dquote) ::
                    (colonC :: (reprC perm val ++
                      (comma :: (reprFields perm (e2 :: t2) ++ rbrace :: rest))))) := by
            simp [reprFields, reprKey]
          rw [pEntries, hrepr, skipWs_cons _ hqws]
          rw [pKey_rt perm hwv.1]
          simp only []
          rw [skipWs_cons _ (by decide)]
          simp only []
          rw [if_pos trivial]
          rw [ihV perm val _ hwv.2.1 hszs.1 (fun s _ => headNotNum_cons _ (by decide))]
          simp only []
          rw [skipWs_cons _ (by decide)]
          simp only []
          rw [if_pos trivial]
          rw [ihE perm (e2 :: t2) rest hwv.2.2 (by simp) hszs.2]

mutual

/-- The size measure is dominated by the rendering's length. -/
theorem sizeV_le (perm : Bool) : ∀ v : PyVal, sizeV v ≤ 2 * (reprC perm v).length + 1
  | .null => by cases perm <;> simp [sizeV, reprC, kwNone, kwNull]
  | .bool b => by cases perm <;> cases b <;>
      simp [sizeV, reprC, kwTrue, kwFalse, kwPyTrue, kwPyFalse]
  | .num s => by simp [sizeV]
  | .str s => by cases perm <;> simp [sizeV, reprC]
  | .list xs => by
      have h := sizeL_le perm xs
      simp only [sizeV, reprC, List.length_cons, List.length_append, List.length_singleton]
      omega
  | .dict ps => by
      have h := sizeE_le perm ps
      simp only [sizeV, reprC, List.length_cons, List.length_append, List.length_singleton]
      omega

/-- Item-list size bound. -/
theorem sizeL_le (perm : Bool) : ∀ xs : List PyVal, sizeL xs ≤ 2 * (reprItems perm xs).length + 3
  | [] => by simp [sizeL, reprItems]
  | [v] => by
      have h := sizeV_le perm v
      simp only [sizeL, reprItems]
      omega
  | v :: w :: t => by
      have h1 := sizeV_le perm v
      have h2 := sizeL_le perm (w :: t)
      simp only [sizeL] at h2
      simp only [sizeL, reprItems, List.length_append, List.length_cons]
      omega

/-- Entry-list size bound. -/
theorem sizeE_le (perm : Bool) :
    ∀ ps : List (String × PyVal), sizeE ps ≤ 2 * (reprFields perm ps).length + 3
  | [] => by simp [sizeE, reprFields]
  | [(k, v)] => by
      have h := sizeV_le perm v
      simp only [sizeE, reprFields, List.length_append, List.length_cons]
      omega
  | (k, v) :: e :: t => by
      have h1 := sizeV_le perm v
      have h2 := sizeE_le perm (e :: t)
      simp only [sizeE] at h2
      simp only [sizeE, reprFields, List.length_append, List.length_cons]
      omega

end

/-- Each parser mode re-reads its own rendering of a well-formed value. -/
theorem parse_repr (perm : Bool) (v : PyVal) (h : WF v = true) :
    parseTop perm (reprP perm v) = some v := by
  have hlen : (reprP perm v).length = (reprC perm v).length := rfl
  have hsz : sizeV v ≤ 2 * (reprP perm v).length + 4 := by
    have h1 := sizeV_le perm v
    rw [hlen]
    omega
  have h1 := (parseRT (2 * (reprP perm v).length + 4)).1 perm v [] h hsz (fun _ _ => trivial)
  rw [List.append_nil] at h1
  unfold parseTop
  have hdata : (reprP perm v).data = reprC perm v := rfl
  rw [hdata, h1]
  rfl

/-- `ast.literal_eval` inverts the permissive rendering. -/
theorem literalEval_repr (v : PyVal) (h : WF v = true) :
    literalEval (reprP true v) = some v := parse_repr true v h

/-- `json.loads` inverts the strict-JSON rendering. -/
theorem jsonLoads_repr (v : PyVal) (h : WF v = true) :
    jsonLoads (reprP false v) = some v := parse_repr false v h

/-! ## Lemmas about pending responses and the poll loops -/

theorem framePayload_append (s : String) : framePayload ("data: " ++ s) = some s := by
  have hd : ("data: " ++ s).data = "data: ".data ++ s.data := by
    cases s with
    | mk d => rfl
  rw [framePayload, hd, stripPfx_self]

theorem pendingLine_skip (target : Option String) (l : String) (h : pendingLine l = true) :
    processLineLog target l = none ∧ processLineHttp l = none := by
  rw [pendingLine] at h
  cases hfp : framePayload l with
  | none => simp [processLineLog, processLineHttp, hfp]
  | some d =>
    rw [hfp] at h
    have hd : d = "null" := by simpa using h
    simp [processLineLog, processLineHttp, hfp, hd]

theorem scanLines_pending (target : Option String) :
    ∀ lines : List String, lines.all pendingLine = true →
      scanLines (processLineLog target) lines = none ∧
      scanLines processLineHttp lines = none := by
  intro lines h
  induction lines with
  | nil => exact ⟨rfl, rfl⟩
  | cons l rest ih =>
    simp only [List.all_cons, Bool.and_eq_true] at h
    obtain ⟨h1, h2⟩ := pendingLine_skip target l h.1
    obtain ⟨h3, h4⟩ := ih h.2
    exact ⟨by simp [scanLines, h1, h3], by simp [scanLines, h2, h4]⟩

theorem pollLoopLog_pending (b : Nat → FetchResp) (target : Option String)
    (hb : ∀ n, ∃ body, b n = .ok 200 body ∧ pendingBody body = true) :
    ∀ r a, pollLoopLog b target a r = (.timedOut, r) := by
  intro r
  induction r with
  | zero => intro a; rfl
  | succ r ih =>
    intro a
    obtain ⟨body, hok, hpend⟩ := hb a
    rw [pollLoopLog, hok]
    simp only [if_pos rfl]
    rw [(scanLines_pending target (pySplitLines body) hpend).1]
    simp [ih (a + 1)]

theorem pollLoopHttp_pending (b : Nat → FetchResp) (maxA : Nat)
    (hb : ∀ n, ∃ body, b n = .ok 200 body ∧ pendingBody (pyStrip body) = true) :
    ∀ r a, 1 ≤ r → a + r = maxA → pollLoopHttp b maxA a r = (.timedOut, r) := by
  intro r
  induction r with
  | zero => intro a h; omega
  | succ r ih =>
    intro a _ hinv
    obtain ⟨body, hok, hpend⟩ := hb a
    rw [pollLoopHttp, hok]
    simp only [if_pos rfl]
    rw [(scanLines_pending none (pySplitLines (pyStrip body)) hpend).2]
    cases r with
    | zero => simp [show a = maxA - 1 from by omega]
    | succ r2 =>
      simp only [show (a = maxA - 1) = False from by simp; omega, if_false]
      simp [ih (a + 1) (by omega) (by omega)]

theorem pollLoopLog_raise (b : Nat → FetchResp) (target : Option String) :
    ∀ k r a, k < r →
      (∀ j, j < k → ∃ body, b (a + j) = .ok 200 body ∧ pendingBody body = true) →
      b (a + k) = .raise →
      pollLoopLog b target a r = (.error, k + 1) := by
  intro k
  induction k with
  | zero =>
    intro r a hk hpre hraise
    cases r with
    | zero => omega
    | succ r2 =>
      rw [pollLoopLog]
      rw [show a + 0 = a from rfl] at hraise
      rw [hraise]
  | succ k ih =>
    intro r a hk hpre hraise
    cases r with
    | zero => omega
    | succ r2 =>
      obtain ⟨body, hok, hpend⟩ := hpre 0 (by omega)
      rw [show a + 0 = a from rfl] at hok
      rw [pollLoopLog, hok]
      simp only [if_pos rfl]
      rw [(scanLines_pending target (pySplitLines body) hpend).1]
      have hrec := ih r2 (a + 1) (by omega)
        (fun j hj => by
          obtain ⟨body2, h1, h2⟩ := hpre (j + 1) (by omega)
          exact ⟨body2, by rw [show a + 1 + j = a + (j + 1) by omega]; exact h1, h2⟩)
        (by rw [show a + 1 + k = a + (k + 1) by omega]; exact hraise)
      simp [hrec]

theorem pollLoopHttp_raise (b : Nat → FetchResp) (maxA : Nat) :
    ∀ k r a, k < r → a + r ≤ maxA →
      (∀ j, j < k → ∃ body, b (a + j) = .ok 200 body ∧ pendingBody (pyStrip body) = true) →
      b (a + k) = .raise →
      pollLoopHttp b maxA a r = (.transportError, k + 1) := by
  intro k
  induction k with
  | zero =>
    intro r a hk hinv hpre hraise
    cases r with
    | zero => omega
    | succ r2 =>
      rw [pollLoopHttp]
      rw [show a + 0 = a from rfl] at hraise
      rw [hraise]
  | succ k ih =>
    intro r a hk hinv hpre hraise
    cases r with
    | zero => omega
    | succ r2 =>
      obtain ⟨body, hok, hpend⟩ := hpre 0 (by omega)
      rw [show a + 0 = a from rfl] at hok
      rw [pollLoopHttp, hok]
      simp only [if_pos rfl]
      rw [(scanLines_pending none (pySplitLines (pyStrip body)) hpend).2]
      rw [if_neg (by omega : ¬a = maxA - 1)]
      have hrec := ih r2 (a + 1) (by omega) (by omega)
        (fun j hj => by
          obtain ⟨body2, h1, h2⟩ := hpre (j + 1) (by omega)
          exact ⟨body2, by rw [show a + 1 + j = a + (j + 1) by omega]; exact h1, h2⟩)
        (by rw [show a + 1 + k = a + (k + 1) by omega]; exact hraise)
      simp [hrec]

theorem runJobLog_ok200 (b : Nat → FetchResp) (maxA : Nat) (target eid : Option String) :
    runJobLog (.ok 200 eid) b maxA target = pollLoopLog b target 0 maxA := by
  simp [runJobLog]

theorem runJobHttp_ok200 (b : Nat → FetchResp) (maxA : Nat) (eid : Option String) :
    runJobHttp (.ok 200 eid) b maxA = pollLoopHttp b maxA 0 maxA := by
  rw [runJobHttp, if_neg (by omega)]

theorem asLowerStr_strOf {v : PyVal} {c : String} (h : asLowerStr v = some c) :
    c = pyLower (strOf v) := by
  cases v <;> simp [asLowerStr, strOf] at h ⊢ <;> exact h.symm

/-! ## Claim theorems -/

/-- C2: for every service behaviour in which each poll response contains only
the Pending sentinel, the client performs exactly `maxAttempts` fetch calls —
never fewer, never more — and then returns the TimedOut outcome.  (For the
http variant the timeout return sits inside the loop, so one attempt must
exist.) -/
theorem c2_pending_exactly_max (b : Nat → FetchResp) (maxAttempts : Nat)
    (target eventId : Option String)
    (hb : ∀ n, ∃ body, b n = .ok 200 body ∧ pendingBody body = true ∧
      pendingBody (pyStrip body) = true) :
    runJobLog (.ok 200 eventId) b maxAttempts target = (.timedOut, maxAttempts) ∧
    (1 ≤ maxAttempts →
      runJobHttp (.ok 200 eventId) b maxAttempts = (.timedOut, maxAttempts)) := by
  constructor
  · rw [runJobLog_ok200]
    exact pollLoopLog_pending b target
      (fun n => (hb n).imp (fun body h => ⟨h.1, h.2.1⟩)) maxAttempts 0
  · intro hmax
    rw [runJobHttp_ok200]
    exact pollLoopHttp_pending b maxAttempts
      (fun n => (hb n).imp (fun body h => ⟨h.1, h.2.2⟩)) maxAttempts 0 hmax (by omega)

/-- Witness for C2 at the scripts' actual configuration (30 attempts,
every response `data: null`). -/
theorem c2_pending_exactly_max_witness :
    runJobLog (.ok 200 (some "abc")) (fun _ => .ok 200 "data: null") 30 none
      = (.timedOut, 30) ∧
    runJobHttp (.ok 200 (some "abc")) (fun _ => .ok 200 "data: null") 30
      = (.timedOut, 30) := by
  have h := c2_pending_exactly_max (fun _ => .ok 200 "data: null") 30 none (some "abc")
    (fun n => ⟨"data: null", rfl, by rfl, by rfl⟩)
  exact ⟨h.1, h.2 (by omega)⟩

/-- C6: every event frame whose payload is the literal sentinel `null` is
classified Pending: it produces no outcome (the branch returns before the
decoder is reached), in both script variants. -/
theorem c6_null_sentinel_pending (target : Option String) (line : String)
    (h : framePayload line = some "null") :
    processLineLog target line = none ∧ processLineHttp line = none := by
  simp [processLineLog, processLineHttp, h]

/-- Witness for C6 on the literal frame `data: null`. -/
theorem c6_null_sentinel_pending_witness :
    processLineLog none "data: null" = none ∧ processLineHttp "data: null" = none :=
  c6_null_sentinel_pending none "data: null" rfl

/-- C7: a decoded payload is treated as a terminal RawResult only if it is a
list of length at least two; any other decoded value produces no outcome at
all from the frame (so in particular never a transition to Succeeded), in
both script variants. -/
theorem c7_terminal_needs_list_ge2 (target : Option String) (data : String) (v : PyVal)
    (hparse : jsonLoads data = some v)
    (hnot : ∀ xs : List PyVal, v = .list xs → xs.length < 2) :
    decodeFrameLog target data = none ∧ decodeFrameHttp data = none := by
  cases v with
  | list xs =>
    have h := hnot xs rfl
    constructor
    · rw [decodeFrameLog, hparse]
      simp only []
      rw [if_neg (by omega)]
    · rw [decodeFrameHttp, hparse]
      simp only []
      rw [if_neg (by omega)]
  | null => exact ⟨by rw [decodeFrameLog, hparse], by rw [decodeFrameHttp, hparse]⟩
  | bool b => exact ⟨by rw [decodeFrameLog, hparse], by rw [decodeFrameHttp, hparse]⟩
  | num s => exact ⟨by rw [decodeFrameLog, hparse], by rw [decodeFrameHttp, hparse]⟩
  | str s => exact ⟨by rw [decodeFrameLog, hparse], by rw [decodeFrameHttp, hparse]⟩
  | dict d => exact ⟨by rw [decodeFrameLog, hparse], by rw [decodeFrameHttp, hparse]⟩

/-- Witness for C7 on the decoded payload `[]` (a list of length 0). -/
theorem c7_terminal_needs_list_ge2_witness :
    decodeFrameLog none "[]" = none ∧ decodeFrameHttp "[]" = none :=
  c7_terminal_needs_list_ge2 none "[]" (.list []) rfl
    (fun xs h => by cases h; decide)

/-- C8: normalising a raw element map substitutes defaults for the absent
optional fields — confidence the numeral `0` (numeric zero), interactivity
`False`, content and source the empty string — and, the normalisation being a
total function, absence is never an error. -/
theorem c8_defaults (d : List (String × PyVal))
    (hc : pyLookup d "confidence" = none) (hi : pyLookup d "interactivity" = none)
    (hco : pyLookup d "content" = none) (hs : pyLookup d "source" = none) :
    normalizeElement d =
      { content := .str "", confidence := .num "0", interactivity := .bool false,
        source := .str "" } := by
  simp [normalizeElement, pyGetD, orEmptyV, hc, hi, hco, hs]

/-- Witness for C8 on an element map carrying only a `type` field. -/
theorem c8_defaults_witness :
    normalizeElement [("type", PyVal.str "icon")] =
      { content := .str "", confidence := .num "0", interactivity := .bool false,
        source := .str "" } :=
  c8_defaults [("type", PyVal.str "icon")] rfl rfl rfl rfl

/-- C10 (implicit): when the terminal frame decodes successfully but its
element list is empty, the logging client takes the dedicated empty-result
exit — the falsy `return False` at line 106 — never the Succeeded outcome;
a whole run against such a service ends after one fetch with that failure. -/
theorem c10_empty_elements_failure (target : Option String) :
    handleElemsLog target (.list []) = .emptyResult ∧
    outcomeBool .emptyResult = false ∧
    Outcome.emptyResult ≠ Outcome.succeeded ∧
    runJobLog (.ok 200 (some "e"))
      (fun _ => .ok 200 "data: [\"img\",\"[]\"]") 30 none = (.emptyResult, 1) := by
  exact ⟨rfl, rfl, by decide, by rfl⟩

/-- C1 counterexample: with a first response whose only frame is malformed
and every later response Pending, the run performs all 30 fetches and ends
TimedOut — not `Failed(DecodeError)` after a single fetch as claimed. -/
theorem c1_counterexample :
    runJobLog (.ok 200 (some "e"))
      (fun n => .ok 200 (if n = 0 then "data: notjson" else "data: null")) 30 none
      = (.timedOut, 30) ∧ (30 : Nat) ≠ 1 := by
  exact ⟨by rfl, by omega⟩

/-- C1 amended: a frame whose payload neither decode strategy parses is
simply skipped — it produces no outcome, and scanning continues with the
remaining frames (so polling continues; no DecodeError-style terminal state
exists in either variant). -/
theorem c1_malformed_skipped (target : Option String) (line data : String)
    (rest : List String)
    (hframe : framePayload line = some data) (hfail : jsonLoads data = none) :
    processLineLog target line = none ∧ processLineHttp line = none ∧
    scanLines (processLineLog target) (line :: rest)
      = scanLines (processLineLog target) rest ∧
    scanLines processLineHttp (line :: rest) = scanLines processLineHttp rest := by
  have hne : data ≠ "null" := by
    intro e
    rw [e] at hfail
    have : jsonLoads "null" = some .null := rfl
    rw [this] at hfail
    exact Option.noConfusion hfail
  have h1 : processLineLog target line = none := by
    rw [processLineLog, hframe]
    simp only [if_neg hne]
    rw [decodeFrameLog, hfail]
  have h2 : processLineHttp line = none := by
    rw [processLineHttp, hframe]
    simp only [if_neg hne]
    rw [decodeFrameHttp, hfail]
  exact ⟨h1, h2, by rw [scanLines, h1], by rw [scanLines, h2]⟩

/-- Witness for C1's amended statement on the malformed frame
`data: notjson`. -/
theorem c1_malformed_skipped_witness :
    processLineLog none "data: notjson" = none ∧
    processLineHttp "data: notjson" = none ∧
    scanLines (processLineLog none) ["data: notjson", "data: null"]
      = scanLines (processLineLog none) ["data: null"] ∧
    scanLines processLineHttp ["data: notjson", "data: null"]
      = scanLines processLineHttp ["data: null"] :=
  c1_malformed_skipped none "data: notjson" "notjson" ["data: null"] rfl rfl

/-- C4 counterexample: a transport error on the very first result fetch, with
29 attempts remaining, terminates the http client immediately after that one
fetch — it is not absorbed and retried as claimed. -/
theorem c4_counterexample :
    runJobHttp (.ok 200 (some "e")) (fun _ => .raise) 30 = (.transportError, 1) ∧
    (1 : Nat) < 30 := by
  exact ⟨by rfl, by omega⟩

/-- C4 amended: a raised fetch after `k` Pending responses is immediately
terminal in both variants — the exception escapes the poll loop to the
function-level handler, the job ends after `k + 1` fetches, and no retry
happens even though attempts remain. -/
theorem c4_fetch_raise_terminal (b : Nat → FetchResp) (k maxAttempts : Nat)
    (target : Option String)
    (hk : k < maxAttempts)
    (hpre : ∀ j, j < k → ∃ body, b j = .ok 200 body ∧ pendingBody body = true ∧
      pendingBody (pyStrip body) = true)
    (hraise : b k = .raise) :
    runJobHttp (.ok 200 none) b maxAttempts = (.transportError, k + 1) ∧
    runJobLog (.ok 200 none) b maxAttempts target = (.error, k + 1) := by
  constructor
  · rw [runJobHttp_ok200]
    exact pollLoopHttp_raise b maxAttempts k maxAttempts 0 hk (by omega)
      (fun j hj => by
        obtain ⟨bo, hb1, hb2, hb3⟩ := hpre j hj
        exact ⟨bo, by simpa using hb1, hb3⟩)
      (by simpa using hraise)
  · rw [runJobLog_ok200]
    exact pollLoopLog_raise b target k maxAttempts 0 hk
      (fun j hj => by
        obtain ⟨bo, hb1, hb2, hb3⟩ := hpre j hj
        exact ⟨bo, by simpa using hb1, hb2⟩)
      (by simpa using hraise)

/-- Witness for C4's amended statement: the fetch raises on attempt 0 of
30. -/
theorem c4_fetch_raise_terminal_witness :
    runJobHttp (.ok 200 none) (fun _ => .raise) 30 = (.transportError, 1) ∧
    runJobLog (.ok 200 none) (fun _ => .raise) 30 none = (.error, 1) :=
  c4_fetch_raise_terminal (fun _ => .raise) 0 30 none (by omega)
    (fun j hj => absurd hj (by omega)) rfl

/-- C5 counterexample: with a submission response carrying no `event_id`, the
logging client still runs the full polling phase (30 fetches, ending
TimedOut) rather than returning a ProtocolError without polling. -/
theorem c5_counterexample :
    runJobLog (.ok 200 none) (fun _ => .ok 200 "data: null") 30 none
      = (.timedOut, 30) ∧ (30 : Nat) ≠ 0 := by
  exact ⟨by rfl, by omega⟩

/-- C5 amended: neither variant inspects the extracted `event_id` at all —
the run is identical whatever the handle field holds, and with the field
absent the client proceeds straight into the polling phase. -/
theorem c5_no_handle_check (b : Nat → FetchResp) (maxAttempts : Nat)
    (target : Option String) (eid1 eid2 : Option String) :
    runJobLog (.ok 200 eid1) b maxAttempts target
      = runJobLog (.ok 200 eid2) b maxAttempts target ∧
    runJobLog (.ok 200 none) b maxAttempts target = pollLoopLog b target 0 maxAttempts ∧
    runJobHttp (.ok 200 none) b maxAttempts = pollLoopHttp b maxAttempts 0 maxAttempts := by
  refine ⟨?_, runJobLog_ok200 b maxAttempts target none, runJobHttp_ok200 b maxAttempts none⟩
  rw [runJobLog_ok200, runJobLog_ok200]

/-- C9 counterexample: with one element whose content is `Settings` and the
target `" Settings"` (leading whitespace), the code's filter — which never
trims — matches nothing, while the specification's whitespace-trimmed
comparison selects the element. -/
theorem c9_counterexample :
    codeFilter " Settings"
      [PyVal.dict [("content", PyVal.str "Settings"), ("confidence", PyVal.num "0.9")]]
      = some [] ∧
    specFilterTrimmed " Settings"
      [PyVal.dict [("content", PyVal.str "Settings"), ("confidence", PyVal.num "0.9")]]
      = [PyVal.dict [("content", PyVal.str "Settings"), ("confidence", PyVal.num "0.9")]] ∧
    ([] : List PyVal)
      ≠ [PyVal.dict [("content", PyVal.str "Settings"), ("confidence", PyVal.num "0.9")]] := by
  refine ⟨by rfl, by rfl, ?_⟩
  intro h
  exact List.noConfusion h

/-- C9 amended: the filter lowercases both sides but performs no whitespace
trimming; on element lists it cannot raise on, it returns exactly the ordered
sub-list of elements whose lowercased `content` or `source` contains the
lowercased target as a substring, and an empty list — not a failure — when
nothing matches. -/
theorem c9_filter_characterization (target : String) (xs : List PyVal)
    (h : xs.all goodElem = true) :
    codeFilter target xs = some (xs.filter (matchesLog target)) ∧
    (xs.filter (matchesLog target)).Sublist xs ∧
    ((∀ e ∈ xs, matchesLog target e = false) → codeFilter target xs = some []) := by
  have main : ∀ ys : List PyVal, ys.all goodElem = true →
      filterLog (pyLower target) ys = some (ys.filter (matchesLog target)) := by
    intro ys hys
    induction ys with
    | nil => rfl
    | cons e rest ih =>
      simp only [List.all_cons, Bool.and_eq_true] at hys
      obtain ⟨he, hrest⟩ := hys
      cases e with
      | dict d =>
        simp only [goodElem, Bool.and_eq_true, Option.isSome_iff_exists] at he
        obtain ⟨⟨⟨c, hc⟩, ⟨srt, hs⟩⟩, hfmt⟩ := he
        rw [filterLog, hc, hs]
        simp only [hfmt, Bool.not_true, Bool.and_false, if_neg (by simp : ¬False)]
        rw [ih hrest]
        have hcs := asLowerStr_strOf hc
        have hss := asLowerStr_strOf hs
        have hm : (strContains c (pyLower target) || strContains srt (pyLower target))
            = matchesLog target (.dict d) := by
          rw [hcs, hss, matchesLog]
        rw [List.filter_cons]
        simp only [hm]
        cases hmv : matchesLog target (.dict d) <;> simp [hmv]
      | null => simp [goodElem] at he
      | bool b => simp [goodElem] at he
      | num s => simp [goodElem] at he
      | str s => simp [goodElem] at he
      | list l => simp [goodElem] at he
  refine ⟨main xs h, List.filter_sublist _, fun hnone => ?_⟩
  rw [codeFilter, main xs h]
  have : xs.filter (matchesLog target) = [] := by
    rw [List.filter_eq_nil_iff]
    intro a ha
    simp [hnone a ha]
  rw [this]

/-- Witness for C9's amended statement on a two-element list with one
match. -/
theorem c9_filter_characterization_witness :
    codeFilter "ok"
      [PyVal.dict [("content", PyVal.str "OK"), ("confidence", PyVal.num "0.5")],
        PyVal.dict [("content", PyVal.str "Other")]]
      = some ([PyVal.dict [("content", PyVal.str "OK"), ("confidence", PyVal.num "0.5")],
          PyVal.dict [("content", PyVal.str "Other")]].filter (matchesLog "ok")) ∧
    (([PyVal.dict [("content", PyVal.str "OK"), ("confidence", PyVal.num "0.5")],
        PyVal.dict [("content", PyVal.str "Other")]].filter (matchesLog "ok")).Sublist
      [PyVal.dict [("content", PyVal.str "OK"), ("confidence", PyVal.num "0.5")],
        PyVal.dict [("content", PyVal.str "Other")]]) ∧
    ((∀ e ∈ [PyVal.dict [("content", PyVal.str "OK"), ("confidence", PyVal.num "0.5")],
        PyVal.dict [("content", PyVal.str "Other")]], matchesLog "ok" e = false) →
      codeFilter "ok"
        [PyVal.dict [("content", PyVal.str "OK"), ("confidence", PyVal.num "0.5")],
          PyVal.dict [("content", PyVal.str "Other")]] = some []) :=
  c9_filter_characterization "ok"
    [PyVal.dict [("content", PyVal.str "OK"), ("confidence", PyVal.num "0.5")],
      PyVal.dict [("content", PyVal.str "Other")]] (by rfl)

/-- C3: for an outer payload that is valid JSON, a list of length ≥ 2 whose
second element is the permissive rendering of some well-formed element list
`v`, and on which strict inner parsing fails, the two-stage decoder of
`inspect_omniparser.py` succeeds via the `ast.literal_eval` fallback and
yields exactly the value a strict `json.loads` of the equivalent valid-JSON
rendering of `v` yields. -/
theorem c3_fallback_equiv (data : String) (xs : List PyVal) (v : PyVal)
    (houter : jsonLoads data = some (.list xs)) (hlen : 2 ≤ xs.length)
    (hsnd : xs[1]? = some (.str (reprP true v)))
    (hwf : WF v = true)
    (hfail : jsonLoads (reprP true v) = none) :
    inspectDecode data = literalEval (reprP true v) ∧
    literalEval (reprP true v) = some v ∧
    jsonLoads (reprP false v) = some v := by
  refine ⟨?_, literalEval_repr v hwf, jsonLoads_repr v hwf⟩
  rw [inspectDecode, houter]
  simp only [if_pos hlen]
  rw [hsnd]
  simp only []
  rw [decodeInner, hfail]

/-- Witness for C3: the element list
`[{'type': 'icon', 'interactivity': True}]` in permissive rendering, embedded
as the second member of a valid-JSON outer payload. -/
theorem c3_fallback_equiv_witness :
    inspectDecode (reprP false (.list [.str "img",
        .str (reprP true (.list [.dict [("type", .str "icon"),
          ("interactivity", .bool true)]]))]))
      = literalEval (reprP true (.list [.dict [("type", .str "icon"),
          ("interactivity", .bool true)]])) ∧
    literalEval (reprP true (.list [.dict [("type", .str "icon"),
        ("interactivity", .bool true)]]))
      = some (.list [.dict [("type", .str "icon"), ("interactivity", .bool true)]]) ∧
    jsonLoads (reprP false (.list [.dict [("type", .str "icon"),
        ("interactivity", .bool true)]]))
      = some (.list [.dict [("type", .str "icon"), ("interactivity", .bool true)]]) :=
  c3_fallback_equiv
    (reprP false (.list [.str "img",
      .str (reprP true (.list [.dict [("type", .str "icon"),
        ("interactivity", .bool true)]]))]))
    [.str "img",
      .str (reprP true (.list [.dict [("type", .str "icon"),
        ("interactivity", .bool true)]]))]
    (.list [.dict [("type", .str "icon"), ("interactivity", .bool true)]])
    (by rfl) (by rfl) (by rfl) (by rfl) (by rfl)

end Omni
